import Mathlib

/-!
Verification of the Solana chain CLI commands
(core/cmd/solana_chains_commands.go): the merge-patch engine of
`ConfigureSolanaChain`, the table rendering of `SolanaChainPresenter` /
`SolanaChainPresenters`, and the deferred response-body-close error
aggregation shared by `CreateSolanaChain` and `ConfigureSolanaChain`.

Conventions of the embedding:
- JSON documents are the inductive `Json`; numbers are `Rat`
  (an idealisation of Go's float64; no claim depends on float rounding).
- Go maps `map[string]interface{}` are association lists without
  duplicate keys; `mapSet` is Go map assignment (replace-or-add),
  `mapGet` is lookup.
- `jsonUnmarshal` models `encoding/json.Unmarshal` into `interface{}`:
  parse one JSON value, demand only whitespace after it; duplicate keys
  of an object — the later one wins, as when Go decodes into a map.
- Errors carried by Go `error` values are message strings; `multierr`
  composites are lists of message strings (`[]` is the nil error).
-/

/-- A decoded JSON document (Go `interface{}` after `json.Unmarshal`). -/
inductive Json where
  | null : Json
  | bool (b : Bool) : Json
  | num (q : Rat) : Json
  | str (s : String) : Json
  | arr (elems : List Json) : Json
  | obj (fields : List (String × Json)) : Json

/-- The top-level configuration document of a chain resource.
Modelled from the spec: `presenters.SolanaChainResource.Config` is not in
the analysed sources; §3 of the spec describes it as a map-like structured
document ("opaque structured document (map-like, nested, heterogeneous
value types)"), so it is a JSON object, i.e. a key/value field list. -/
abbrev ConfigDoc := List (String × Json)

/-- Go map assignment `m[k] = v`: replace the binding of `k` if present,
otherwise add one. -/
def mapSet : ConfigDoc → String → Json → ConfigDoc
  | [], k, v => [(k, v)]
  | (k2, v2) :: rest, k, v =>
    if k2 = k then (k, v) :: rest else (k2, v2) :: mapSet rest k v

/-- Go map lookup `m[k]`. -/
def mapGet : ConfigDoc → String → Option Json
  | [], _ => none
  | (k2, v) :: rest, k => if k2 = k then some v else mapGet rest k

/-- Build a Go map from decoded object members; a later duplicate key
overwrites an earlier one, as `encoding/json` does when decoding into a
map. -/
def objOfMembers (kvs : List (String × Json)) : ConfigDoc :=
  kvs.foldl (fun m kv => mapSet m kv.1 kv.2) []

/-- JSON insignificant whitespace. -/
def isJsonWs (c : Char) : Bool :=
  c = ' ' || c = '\t' || c = '\n' || c = '\r'

/-- Drop leading JSON whitespace. -/
def skipWs : List Char → List Char
  | [] => []
  | c :: cs => if isJsonWs c then skipWs cs else c :: cs

/-- Match an expected literal suffix (e.g. "ull" after 'n'). -/
def stripLit : List Char → List Char → Option (List Char)
  | [], cs => some cs
  | _ :: _, [] => none
  | p :: ps, c :: cs => if c = p then stripLit ps cs else none

/-- Value of a hexadecimal digit. -/
def hexDigitVal (c : Char) : Option Nat :=
  if '0' ≤ c ∧ c ≤ '9' then some (c.toNat - 48)
  else if 'a' ≤ c ∧ c ≤ 'f' then some (c.toNat - 87)
  else if 'A' ≤ c ∧ c ≤ 'F' then some (c.toNat - 70)
  else none

/-- Decimal digit test. -/
def isDigitChar (c : Char) : Bool := '0' ≤ c ∧ c ≤ '9'

/-- Split a leading run of decimal digits. -/
def takeDigits : List Char → List Char × List Char
  | [] => ([], [])
  | c :: cs =>
    if isDigitChar c then
      let (ds, rest) := takeDigits cs
      (c :: ds, rest)
    else ([], c :: cs)

/-- Numeric value of a digit run. -/
def digitsVal (ds : List Char) : Nat :=
  ds.foldl (fun n c => n * 10 + (c.toNat - 48)) 0

/-- Assemble a JSON number from sign, integer+fraction digits, fraction
length and decimal exponent. Integers avoid `Rat` division so that they
reduce well. -/
def ratOfParts (neg : Bool) (mant : Nat) (fracLen : Nat) (exp : Int) : Rat :=
  let m : Int := if neg then -(mant : Int) else (mant : Int)
  let e : Int := exp - (fracLen : Int)
  if 0 ≤ e then ((m * 10 ^ e.toNat : Int) : Rat)
  else (m : Rat) / ((10 : Rat) ^ (-e).toNat)

/-- Parse the body of a JSON string after the opening quote, handling the
escape sequences `encoding/json` accepts (surrogate pairs are decoded as
two separate code units; no claim exercises them). -/
def parseStringBody : Nat → List Char → List Char → Option (String × List Char)
  | 0, _, _ => none
  | _ + 1, _, [] => none
  | fuel + 1, acc, c :: cs =>
    if c = '"' then some (String.mk acc.reverse, cs)
    else if c = '\\' then
      match cs with
      | [] => none
      | e :: cs2 =>
        if e = '"' then parseStringBody fuel ('"' :: acc) cs2
        else if e = '\\' then parseStringBody fuel ('\\' :: acc) cs2
        else if e = '/' then parseStringBody fuel ('/' :: acc) cs2
        else if e = 'b' then parseStringBody fuel ('\x08' :: acc) cs2
        else if e = 'f' then parseStringBody fuel ('\x0c' :: acc) cs2
        else if e = 'n' then parseStringBody fuel ('\n' :: acc) cs2
        else if e = 'r' then parseStringBody fuel ('\r' :: acc) cs2
        else if e = 't' then parseStringBody fuel ('\t' :: acc) cs2
        else if e = 'u' then
          match cs2 with
          | h1 :: h2 :: h3 :: h4 :: rest =>
            match hexDigitVal h1, hexDigitVal h2, hexDigitVal h3, hexDigitVal h4 with
            | some a, some b, some c3, some d =>
              let code := ((a * 16 + b) * 16 + c3) * 16 + d
              parseStringBody fuel (Char.ofNat code :: acc) rest
            | _, _, _, _ => none
          | _ => none
        else none
    else if c.toNat < 32 then none
    else parseStringBody fuel (c :: acc) cs

/-- Parse a JSON number per RFC 8259 (`-`? int frac? exp?), rejecting
leading zeros as Go does. -/
def parseNumber (cs : List Char) : Option (Json × List Char) :=
  let (neg, cs1) :=
    match cs with
    | '-' :: rest => (true, rest)
    | _ => (false, cs)
  match cs1 with
  | [] => none
  | c :: rest =>
    if ¬ isDigitChar c then none
    else
      let (intDs, afterInt) :=
        if c = '0' then (['0'], rest)
        else
          let (ds, r) := takeDigits rest
          (c :: ds, r)
      let (fracDs, afterFrac) :=
        match afterInt with
        | '.' :: r =>
          let (ds, r2) := takeDigits r
          (ds, r2)
        | _ => ([], afterInt)
      match afterInt, fracDs with
      | '.' :: _, [] => none
      | _, _ =>
        match afterFrac with
        | 'e' :: r | 'E' :: r =>
          let (expNeg, r2) :=
            match r with
            | '+' :: r3 => (false, r3)
            | '-' :: r3 => (true, r3)
            | _ => (false, r)
          let (expDs, r4) := takeDigits r2
          if expDs.isEmpty then none
          else
            let e : Int :=
              if expNeg then -(digitsVal expDs : Int) else (digitsVal expDs : Int)
            some (Json.num (ratOfParts neg (digitsVal (intDs ++ fracDs)) fracDs.length e), r4)
        | _ =>
          some (Json.num (ratOfParts neg (digitsVal (intDs ++ fracDs)) fracDs.length 0), afterFrac)

mutual

/-- Parse one JSON value (leading whitespace allowed), returning the
remaining input. -/
def parseV : Nat → List Char → Option (Json × List Char)
  | 0, _ => none
  | fuel + 1, cs =>
    match skipWs cs with
    | [] => none
    | c :: cs1 =>
      if c = 'n' then
        (stripLit ['u', 'l', 'l'] cs1).map (fun r => (Json.null, r))
      else if c = 't' then
        (stripLit ['r', 'u', 'e'] cs1).map (fun r => (Json.bool true, r))
      else if c = 'f' then
        (stripLit ['a', 'l', 's', 'e'] cs1).map (fun r => (Json.bool false, r))
      else if c = '"' then
        (parseStringBody (fuel + 1) [] cs1).map (fun sv => (Json.str sv.1, sv.2))
      else if c = '[' then
        match skipWs cs1 with
        | ']' :: rest => some (Json.arr [], rest)
        | cs2 =>
          (parseElems fuel cs2).map (fun vr => (Json.arr vr.1, vr.2))
      else if c = '\x7b' then
        match skipWs cs1 with
        | '\x7d' :: rest => some (Json.obj [], rest)
        | cs2 =>
          (parseMembers fuel cs2).map (fun mr => (Json.obj (objOfMembers mr.1), mr.2))
      else parseNumber (c :: cs1)

/-- Parse the comma-separated elements of a non-empty array, up to and
including the closing bracket. -/
def parseElems : Nat → List Char → Option (List Json × List Char)
  | 0, _ => none
  | fuel + 1, cs =>
    match parseV fuel cs with
    | none => none
    | some (v, rest) =>
      match skipWs rest with
      | ',' :: rest2 =>
        match parseElems fuel rest2 with
        | some (vs, rest3) => some (v :: vs, rest3)
        | none => none
      | ']' :: rest2 => some ([v], rest2)
      | _ => none

/-- Parse the members of a non-empty object, up to and including the
closing brace. -/
def parseMembers : Nat → List Char → Option (List (String × Json) × List Char)
  | 0, _ => none
  | fuel + 1, cs =>
    match skipWs cs with
    | '"' :: cs1 =>
      match parseStringBody (fuel + 1) [] cs1 with
      | none => none
      | some (k, rest) =>
        match skipWs rest with
        | ':' :: rest2 =>
          match parseV fuel rest2 with
          | none => none
          | some (v, rest3) =>
            match skipWs rest3 with
            | ',' :: rest4 =>
              match parseMembers fuel rest4 with
              | some (kvs, rest5) => some ((k, v) :: kvs, rest5)
              | none => none
            | '\x7d' :: rest4 => some ([(k, v)], rest4)
            | _ => none
        | _ => none
    | _ => none

end

/-- Model of `encoding/json.Unmarshal(data, &value)` with `value : interface\x7b\x7d`:
parse exactly one JSON value, allowing surrounding whitespace only. -/
def jsonUnmarshal (s : String) : Option Json :=
  match parseV (4 * s.data.length + 8) s.data with
  | some (v, rest) => if (skipWs rest).isEmpty then some v else none
  | none => none

/-- Model of `strings.SplitN(arg, "=", 2)`: split at the first `=`; a token with no
`=` yields a one-element list. -/
def splitEqAux (acc : List Char) : List Char → List String
  | [] => [String.mk acc.reverse]
  | c :: cs =>
    if c = '=' then [String.mk acc.reverse, String.mk cs]
    else splitEqAux (c :: acc) cs

/-- Model of `strings.SplitN(arg, "=", 2)` on a whole argument string. -/
def splitEq (arg : String) : List String := splitEqAux [] arg.data

/-- The value stored for one override (solana_chains_commands.go lines
169-175): try `json.Unmarshal` on the raw text; on failure treat it as a
string. -/
def parseOverrideValue (raw : String) : Json :=
  match jsonUnmarshal raw with
  | some v => v
  | none => Json.str raw

/-- The override-parsing loop of `ConfigureSolanaChain` (lines 162-176):
split each argument at the first `=`, reject arguments with no `=`, and
assign the parsed value into the `params` map so that a later duplicate
key overwrites an earlier one. -/
def parseParams : List String → ConfigDoc → Except String ConfigDoc
  | [], acc => .ok acc
  | arg :: rest, acc =>
    match splitEq arg with
    | [k, raw] => parseParams rest (mapSet acc k (parseOverrideValue raw))
    | _ => .error ("invalid parameter: " ++ arg)

/-- The merge step of `ConfigureSolanaChain` (lines 178-188):
`json.Marshal(params)` followed by `json.Unmarshal(rawUpdates, &config)`.
Unmarshalling a JSON object into a non-nil Go map keeps the entries not
named by the object and overwrites (or adds) each entry the object names,
so the round trip is assignment of every `params` entry into `config`;
marshalling a Go map emits each key exactly once, hence the fold order is
immaterial and neither library call can fail on decoded JSON values. -/
def mergeConfig (config : ConfigDoc) (params : ConfigDoc) : ConfigDoc :=
  params.foldl (fun acc kv => mapSet acc kv.1 kv.2) config

/-- The parsed value carried by the last override argument for key `k`
(characterises the source's last-wins map assignment). -/
def lastOverrideValue (args : List String) (k : String) : Option Json :=
  match args with
  | [] => none
  | arg :: rest =>
    match lastOverrideValue rest k with
    | some v => some v
    | none =>
      match splitEq arg with
      | [k2, raw] => if k2 = k then some (parseOverrideValue raw) else none
      | _ => none

/-- The binding of the last entry for `k` in an association list. -/
def lastAssoc : ConfigDoc → String → Option Json
  | [], _ => none
  | (k2, v) :: rest, k =>
    match lastAssoc rest k with
    | some v2 => some v2
    | none => if k2 = k then some v else none

/-- Model of `presenters.SolanaChainResource` as the CLI sees it after a successful
decode: identifier, enabled flag, configuration document, and the two
timestamps rendered as text (`CreatedAt.String()`). -/
structure SolanaChainResource where
  id : String
  enabled : Bool
  config : ConfigDoc
  createdAt : String
  updatedAt : String

/-- A network call issued by `ConfigureSolanaChain`; the PATCH carries its
JSON body `given enabled and config` (lines 190-199). -/
inductive NetCall where
  | get (path : String)
  | patch (path : String) (enabled : Bool) (config : ConfigDoc)

/-- Result of one `ConfigureSolanaChain` run: the network calls issued in
order, and the returned value (the decoded updated resource, or the error
handed to `cli.errorOut`). -/
structure ConfigureOutcome where
  calls : List NetCall
  result : Except String SolanaChainResource

/-- Model of `ConfigureSolanaChain` (lines 135-209).  `getResult` stands for the
GET round trip plus `deserializeAPIResponse`; `patchResult` for the PATCH
round trip plus `renderAPIResponse`, as functions of the body sent.  The
deferred response-body closes only amend the returned error and are
modelled separately by `deferredBodyClose`.  Faithful ordering: the GET
is issued before the override arguments are inspected. -/
def ConfigureSolanaChain (chainID : String) (args : List String)
    (getResult : Except String SolanaChainResource)
    (patchResult : Bool → ConfigDoc → Except String SolanaChainResource) :
    ConfigureOutcome :=
  if chainID = "" then
    { calls := [],
      result := .error "missing chain ID (usage: chainlink solana chains configure [-id string] [key1=value1 key2=value2 ...])" }
  else if args.isEmpty then
    { calls := [],
      result := .error "must pass in at least one chain configuration parameters (usage: chainlink solana chains configure [-id string] [key1=value1 key2=value2 ...])" }
  else
    let getCall := NetCall.get ("/v2/chains/solana/" ++ chainID)
    match getResult with
    | .error e => { calls := [getCall], result := .error e }
    | .ok chain =>
      match parseParams args [] with
      | .error e => { calls := [getCall], result := .error e }
      | .ok params =>
        let config := mergeConfig chain.config params
        { calls := [getCall,
                    NetCall.patch ("/v2/chains/solana/" ++ chainID) chain.enabled config],
          result := patchResult chain.enabled config }

/-- Model of `go.uber.org/multierr.Append`: combine two (possibly nil) errors,
keeping every underlying message; nil is the empty list. -/
def multierrAppend (err cerr : List String) : List String := err ++ cerr

/-- The deferred response-body close of `CreateSolanaChain` (lines
106-110) and `ConfigureSolanaChain` (lines 203-207): if `Close` fails its
error is appended to the named return value, otherwise the return value
is untouched. -/
def deferredBodyClose (err : List String) (closeErr : Option String) : List String :=
  match closeErr with
  | none => err
  | some c => multierrAppend err [c]

/-- Escape one character of a JSON string as `encoding/json` renders it
(quote, backslash and control characters; the HTML-escaping of `<`, `>`,
`&` that Go also applies is omitted — no claim inspects it). -/
def escapeJsonChar (c : Char) : String :=
  if c = '"' then "\\\""
  else if c = '\\' then "\\\\"
  else if c = '\n' then "\\n"
  else if c = '\r' then "\\r"
  else if c = '\t' then "\\t"
  else if c.toNat < 32 then "\\u00" ++ String.mk [Char.ofNat (if c.toNat / 16 < 10 then 48 + c.toNat / 16 else 87 + c.toNat / 16), Char.ofNat (if c.toNat % 16 < 10 then 48 + c.toNat % 16 else 87 + c.toNat % 16)]
  else String.mk [c]

/-- Render a string as a quoted JSON string literal. -/
def renderJsonString (s : String) : String :=
  "\"" ++ String.join (s.data.map escapeJsonChar) ++ "\""

/-- Render a JSON number.  Integers render as Go does; non-integral
rationals use `num/den` text, diverging from Go's shortest-float form,
which no claim inspects. -/
def renderJsonNum (q : Rat) : String :=
  if q.den = 1 then toString q.num else toString q.num ++ "/" ++ toString q.den

/-- Four spaces per indentation level, the indent string passed to
`json.MarshalIndent(p.Config, "", "    ")`. -/
def indentStr (level : Nat) : String := String.mk (List.replicate (4 * level) ' ')

mutual

/-- Render a JSON value at an indentation level, in the layout of
`json.MarshalIndent` with a four-space indent. -/
def renderJson (level : Nat) : Json → String
  | .null => "null"
  | .bool b => if b then "true" else "false"
  | .num q => renderJsonNum q
  | .str s => renderJsonString s
  | .arr [] => "[]"
  | .arr (x :: xs) =>
    "[\n" ++ renderJsonItems level x xs ++ "\n" ++ indentStr level ++ "]"
  | .obj [] => "\x7b\x7d"
  | .obj ((k, v) :: kvs) =>
    "\x7b\n" ++ renderJsonFields level k v kvs ++ "\n" ++ indentStr level ++ "\x7d"
termination_by j => sizeOf j

/-- Render array elements, one per line, comma separated. -/
def renderJsonItems (level : Nat) (x : Json) : List Json → String
  | [] => indentStr (level + 1) ++ renderJson (level + 1) x
  | y :: ys =>
    indentStr (level + 1) ++ renderJson (level + 1) x ++ ",\n" ++ renderJsonItems level y ys
termination_by ys => 1 + sizeOf x + sizeOf ys

/-- Render object fields, one per line, comma separated. -/
def renderJsonFields (level : Nat) (k : String) (v : Json) : List (String × Json) → String
  | [] => indentStr (level + 1) ++ renderJsonString k ++ ": " ++ renderJson (level + 1) v
  | (k2, v2) :: kvs =>
    indentStr (level + 1) ++ renderJsonString k ++ ": " ++ renderJson (level + 1) v ++ ",\n" ++ renderJsonFields level k2 v2 kvs
termination_by kvs => 1 + sizeOf v + sizeOf kvs

end

mutual

/-- Whether `encoding/json` can marshal this value.  Go marshalling fails
only on values that cannot come from a JSON decode (channels, functions,
NaN/Inf floats, cycles); every constructor of `Json` is marshallable, and
the recursion mirrors the marshaller's traversal. -/
def encodableJson : Json → Bool
  | .null => true
  | .bool _ => true
  | .num _ => true
  | .str _ => true
  | .arr xs => encodableArr xs
  | .obj fs => encodableObj fs
termination_by j => sizeOf j

/-- Every array element is marshallable. -/
def encodableArr : List Json → Bool
  | [] => true
  | x :: xs => encodableJson x && encodableArr xs
termination_by xs => sizeOf xs

/-- Every field value is marshallable. -/
def encodableObj : List (String × Json) → Bool
  | [] => true
  | (_, v) :: fs => encodableJson v && encodableObj fs
termination_by fs => sizeOf fs

end

/-- Model of `json.MarshalIndent(v, "", "    ")`: an error exactly when
the value is not marshallable, else the indented text.  (Go additionally
sorts map keys; no claim inspects key order of the rendered text.) -/
def goMarshalIndent (j : Json) : Except String String :=
  if encodableJson j then .ok (renderJson 0 j) else .error "json: unsupported type"

/-- Model of `strconv.FormatBool`. -/
def formatBool (b : Bool) : String := if b then "true" else "false"

/-- Model of the `SolanaChainPresenter` struct: it embeds the decoded
resource (`presenters.SolanaChainResource`). -/
structure SolanaChainPresenter where
  resource : SolanaChainResource

/-- The row `ToRow` builds (lines 32-39): identifier, enabled flag text,
pretty-printed config, and the two timestamps. -/
def ToRow (p : SolanaChainPresenter) : List String :=
  [p.resource.id,
   formatBool p.resource.enabled,
   renderJson 0 (Json.obj p.resource.config),
   p.resource.createdAt,
   p.resource.updatedAt]

/-- Model of `ToRow` (lines 25-40) with its `panic(err)` branch made
explicit: marshalling failure is a fatal error, not a row. -/
def ToRowE (p : SolanaChainPresenter) : Except String (List String) :=
  match goMarshalIndent (Json.obj p.resource.config) with
  | .error e => .error ("panic: " ++ e)
  | .ok config =>
    .ok [p.resource.id,
         formatBool p.resource.enabled,
         config,
         p.resource.createdAt,
         p.resource.updatedAt]

/-- Modelled from the spec: `renderList(headers, rows, writer)` is not in
the analysed sources; §4.1 says rendering "writes a header row matching
the toRow column order followed by one data row per resource, to the
given output sink".  The sink output is the list of rows written, header
first. -/
def renderList (headers : List String) (rows : List (List String)) : List (List String) :=
  headers :: rows

/-- Model of `SolanaChainPresenter.RenderTable` (lines 44-52): render the
single row, return nil.  Result: (rows written to the sink, returned
error), with `none` the nil error. -/
def SolanaChainPresenter.RenderTable (p : SolanaChainPresenter) :
    List (List String) × Option String :=
  let headers := ["ID", "Enabled", "Config", "Created", "Updated"]
  let rows := ([] : List (List String)) ++ [ToRow p]
  (renderList headers rows, none)

/-- Model of `SolanaChainPresenters` (line 55), a slice of presenters. -/
abbrev SolanaChainPresenters := List SolanaChainPresenter

/-- Model of `SolanaChainPresenters.RenderTable` (lines 58-69): append
one row per member in slice order, render, return nil. -/
def SolanaChainPresenters.RenderTable (ps : SolanaChainPresenters) :
    List (List String) × Option String :=
  let headers := ["ID", "Enabled", "Config", "Created", "Updated"]
  let rows := ps.foldl (fun acc p => acc ++ [ToRow p]) []
  (renderList headers rows, none)

/-! ### Lemmas about Go map assignment and the merge -/

theorem mapGet_mapSet (m : ConfigDoc) (k : String) (v : Json) (k2 : String) :
    mapGet (mapSet m k v) k2 = if k = k2 then some v else mapGet m k2 := by
  induction m with
  | nil => simp [mapSet, mapGet]
  | cons kv rest ih =>
    obtain ⟨k3, v3⟩ := kv
    simp only [mapSet]
    by_cases h3 : k3 = k
    · subst h3
      simp only [if_pos rfl, mapGet]
      by_cases h2 : k3 = k2
      · subst h2; simp
      · simp [h2]
    · simp only [if_neg h3, mapGet]
      by_cases h2 : k3 = k2
      · subst h2
        have : ¬ k = k3 := fun hh => h3 hh.symm
        simp [this]
      · simp [h2, ih]

theorem mergeConfig_cons (m : ConfigDoc) (k : String) (v : Json) (ps : ConfigDoc) :
    mergeConfig m ((k, v) :: ps) = mergeConfig (mapSet m k v) ps := rfl

theorem mapGet_mergeConfig (ps : ConfigDoc) (m : ConfigDoc) (k : String) :
    mapGet (mergeConfig m ps) k = (lastAssoc ps k).or (mapGet m k) := by
  induction ps generalizing m with
  | nil => simp [mergeConfig, lastAssoc]
  | cons kv ps ih =>
    obtain ⟨k2, v2⟩ := kv
    rw [mergeConfig_cons, ih, mapGet_mapSet]
    simp only [lastAssoc]
    cases h : lastAssoc ps k with
    | some w => simp
    | none =>
      by_cases h2 : k2 = k
      · subst h2; simp
      · simp [h2]

theorem mem_keys_mapSet (m : ConfigDoc) (k : String) (v : Json) (k2 : String)
    (h : k2 ∈ (mapSet m k v).map Prod.fst) : k2 ∈ m.map Prod.fst ∨ k2 = k := by
  induction m with
  | nil =>
    simp [mapSet] at h
    exact Or.inr h
  | cons kv rest ih =>
    obtain ⟨k3, v3⟩ := kv
    simp only [mapSet] at h
    by_cases h3 : k3 = k
    · rw [if_pos h3] at h
      rw [List.map_cons, List.mem_cons] at h
      rcases h with h | h
      · exact Or.inr h
      · exact Or.inl (by rw [List.map_cons, List.mem_cons]; exact Or.inr h)
    · rw [if_neg h3] at h
      rw [List.map_cons, List.mem_cons] at h
      rcases h with h | h
      · exact Or.inl (by rw [List.map_cons, List.mem_cons]; exact Or.inl h)
      · rcases ih h with hmem | heq
        · exact Or.inl (by rw [List.map_cons, List.mem_cons]; exact Or.inr hmem)
        · exact Or.inr heq

theorem nodup_keys_mapSet (m : ConfigDoc) (k : String) (v : Json)
    (h : (m.map Prod.fst).Nodup) : ((mapSet m k v).map Prod.fst).Nodup := by
  induction m with
  | nil => simp [mapSet]
  | cons kv rest ih =>
    obtain ⟨k3, v3⟩ := kv
    simp only [mapSet]
    by_cases h3 : k3 = k
    · subst h3
      simpa using h
    · rw [if_neg h3]
      simp only [List.map_cons, List.nodup_cons] at h ⊢
      refine ⟨fun hmem => ?_, ih h.2⟩
      rcases mem_keys_mapSet rest k v k3 hmem with hm | he
      · exact h.1 hm
      · exact h3 he

theorem lastAssoc_eq_none_of_not_mem (m : ConfigDoc) (k : String)
    (h : k ∉ m.map Prod.fst) : lastAssoc m k = none := by
  induction m with
  | nil => rfl
  | cons kv rest ih =>
    obtain ⟨k2, v⟩ := kv
    rw [List.map_cons, List.mem_cons] at h
    push_neg at h
    simp only [lastAssoc]
    rw [ih h.2, if_neg (fun he => h.1 he.symm)]

theorem lastAssoc_eq_mapGet (m : ConfigDoc) (k : String)
    (h : (m.map Prod.fst).Nodup) : lastAssoc m k = mapGet m k := by
  induction m with
  | nil => rfl
  | cons kv rest ih =>
    obtain ⟨k2, v⟩ := kv
    rw [List.map_cons, List.nodup_cons] at h
    simp only [lastAssoc, mapGet]
    by_cases h2 : k2 = k
    · subst h2
      rw [lastAssoc_eq_none_of_not_mem rest k2 h.1]
      simp
    · rw [ih h.2, if_neg h2]
      cases mapGet rest k <;> simp [h2]

theorem parseParams_nodup_keys (args : List String) (acc params : ConfigDoc)
    (hacc : (acc.map Prod.fst).Nodup) (h : parseParams args acc = .ok params) :
    (params.map Prod.fst).Nodup := by
  induction args generalizing acc with
  | nil =>
    simp only [parseParams, Except.ok.injEq] at h
    exact h ▸ hacc
  | cons arg rest ih =>
    simp only [parseParams] at h
    cases hsp : splitEq arg with
    | nil => rw [hsp] at h; exact absurd h (by simp)
    | cons k tl =>
      cases tl with
      | nil => rw [hsp] at h; exact absurd h (by simp)
      | cons raw tl2 =>
        cases tl2 with
        | nil =>
          rw [hsp] at h
          exact ih (mapSet acc k (parseOverrideValue raw)) (nodup_keys_mapSet acc k _ hacc) h
        | cons x tl3 => rw [hsp] at h; exact absurd h (by simp)

theorem parseParams_mapGet (args : List String) (acc params : ConfigDoc) (k : String)
    (h : parseParams args acc = .ok params) :
    mapGet params k = (lastOverrideValue args k).or (mapGet acc k) := by
  induction args generalizing acc with
  | nil =>
    simp only [parseParams, Except.ok.injEq] at h
    subst h
    simp [lastOverrideValue]
  | cons arg rest ih =>
    simp only [parseParams] at h
    cases hsp : splitEq arg with
    | nil => rw [hsp] at h; exact absurd h (by simp)
    | cons k2 tl =>
      cases tl with
      | nil => rw [hsp] at h; exact absurd h (by simp)
      | cons raw tl2 =>
        cases tl2 with
        | cons x tl3 => rw [hsp] at h; exact absurd h (by simp)
        | nil =>
          rw [hsp] at h
          rw [ih (mapSet acc k2 (parseOverrideValue raw)) h, mapGet_mapSet]
          simp only [lastOverrideValue, hsp]
          cases lastOverrideValue rest k with
          | some w => simp
          | none =>
            by_cases h2 : k2 = k
            · subst h2; simp
            · simp [h2]

theorem parseParams_error_of_malformed (args : List String)
    (h : ∃ arg ∈ args, (splitEq arg).length ≠ 2) (acc : ConfigDoc) :
    ∃ e, parseParams args acc = .error e := by
  induction args generalizing acc with
  | nil => simp at h
  | cons arg rest ih =>
    cases hsp : splitEq arg with
    | nil => exact ⟨"invalid parameter: " ++ arg, by simp [parseParams, hsp]⟩
    | cons k tl =>
      cases tl with
      | nil => exact ⟨"invalid parameter: " ++ arg, by simp [parseParams, hsp]⟩
      | cons raw tl2 =>
        cases tl2 with
        | cons x tl3 => exact ⟨"invalid parameter: " ++ arg, by simp [parseParams, hsp]⟩
        | nil =>
          rcases h with ⟨a, ha, hlen⟩
          rw [List.mem_cons] at ha
          rcases ha with ha | ha
          · subst ha
            rw [hsp] at hlen
            exact absurd rfl hlen
          · obtain ⟨e, he⟩ := ih ⟨a, ha, hlen⟩ (mapSet acc k (parseOverrideValue raw))
            refine ⟨e, ?_⟩
            simp only [parseParams, hsp]
            exact he

theorem splitEqAux_no_sep (cs : List Char) (acc : List Char) (h : '=' ∉ cs) :
    splitEqAux acc cs = [String.mk (acc.reverse ++ cs)] := by
  induction cs generalizing acc with
  | nil => simp [splitEqAux]
  | cons c cs2 ih =>
    rw [List.mem_cons] at h
    push_neg at h
    simp only [splitEqAux]
    rw [if_neg (fun he => h.1 he.symm), ih (c :: acc) h.2]
    simp

theorem splitEqAux_append (key : List Char) (raw : List Char) (acc : List Char)
    (h : '=' ∉ key) :
    splitEqAux acc (key ++ '=' :: raw) = [String.mk (acc.reverse ++ key), String.mk raw] := by
  induction key generalizing acc with
  | nil => simp [splitEqAux]
  | cons c cs ih =>
    rw [List.mem_cons] at h
    push_neg at h
    rw [List.cons_append]
    simp only [splitEqAux]
    rw [if_neg (fun he => h.1 he.symm), ih (c :: acc) h.2]
    simp

theorem splitEq_append (key raw : String) (h : '=' ∉ key.data) :
    splitEq (key ++ "=" ++ raw) = [key, raw] := by
  have hdata : (key ++ "=" ++ raw).data = key.data ++ '=' :: raw.data := by
    show (key.data ++ ['=']) ++ raw.data = key.data ++ '=' :: raw.data
    rw [List.append_assoc]
    rfl
  rw [splitEq, hdata, splitEqAux_append key.data raw.data [] h]
  simp

mutual

theorem encodableJson_eq_true : ∀ j : Json, encodableJson j = true
  | .null => by rw [encodableJson]
  | .bool _ => by rw [encodableJson]
  | .num _ => by rw [encodableJson]
  | .str _ => by rw [encodableJson]
  | .arr xs => by rw [encodableJson]; exact encodableArr_eq_true xs
  | .obj fs => by rw [encodableJson]; exact encodableObj_eq_true fs
termination_by j => sizeOf j

theorem encodableArr_eq_true : ∀ xs : List Json, encodableArr xs = true
  | [] => by rw [encodableArr]
  | x :: xs => by
    rw [encodableArr, encodableJson_eq_true x, encodableArr_eq_true xs]
    exact Bool.and_self true
termination_by xs => sizeOf xs

theorem encodableObj_eq_true : ∀ fs : List (String × Json), encodableObj fs = true
  | [] => by rw [encodableObj]
  | (k, v) :: fs => by
    rw [encodableObj, encodableJson_eq_true v, encodableObj_eq_true fs]
    exact Bool.and_self true
termination_by fs => sizeOf fs

end

theorem foldl_append_rows (ps : List SolanaChainPresenter) (acc : List (List String)) :
    ps.foldl (fun a p => a ++ [ToRow p]) acc = acc ++ ps.map ToRow := by
  induction ps generalizing acc with
  | nil => simp
  | cons p ps ih => simp [ih, List.append_assoc]

/-- Discriminate the PATCH calls in a network trace. -/
def isPatchCall : NetCall → Bool
  | .patch _ _ _ => true
  | _ => false

/-! ### Claim theorems -/

/-- C1: for every existing configuration document and every valid override
list, the Configure merge replaces each top-level key named by an override
with that override's parsed value, the last occurrence of a duplicated key
winning, and leaves every top-level field not named by any override
unchanged; in particular merging `url=http://b` into a document with
fields url and timeout replaces url and keeps timeout. -/
theorem configure_merge_shallow_replace
    (config : ConfigDoc) (args : List String) (params : ConfigDoc)
    (h : parseParams args [] = .ok params) :
    (∀ k, mapGet (mergeConfig config params) k =
        ((lastOverrideValue args k).or (mapGet config k))) ∧
    parseParams ["url=http://b"] [] = .ok [("url", Json.str "http://b")] ∧
    mergeConfig [("url", Json.str "http://a"), ("timeout", Json.num 5)]
        [("url", Json.str "http://b")] =
      [("url", Json.str "http://b"), ("timeout", Json.num 5)] := by
  refine ⟨fun k => ?_, rfl, rfl⟩
  rw [mapGet_mergeConfig,
      lastAssoc_eq_mapGet params k (parseParams_nodup_keys args [] params (by simp) h),
      parseParams_mapGet args [] params k h]
  cases lastOverrideValue args k <;> simp [mapGet]

theorem configure_merge_shallow_replace_witness :
    mapGet (mergeConfig [("timeout", Json.num 7)] [("rpc", Json.str "wss://x")]) "rpc" =
      ((lastOverrideValue ["rpc=wss://x"] "rpc").or
        (mapGet [("timeout", Json.num 7)] "rpc")) :=
  (configure_merge_shallow_replace [("timeout", Json.num 7)] ["rpc=wss://x"]
    [("rpc", Json.str "wss://x")] rfl).1 "rpc"

/-- C2 as stated is false on the code: with a malformed override token the
validation error is signalled only after the GET of the current resource
has been issued — at this concrete input the call trace already contains
the GET when `invalid parameter` is returned. -/
theorem configure_malformed_token_get_issued :
    (ConfigureSolanaChain "1" ["noequals"]
        (.ok ⟨"1", true, [], "t0", "t1"⟩) (fun _ _ => .error "unused")).result =
      .error "invalid parameter: noequals" ∧
    (ConfigureSolanaChain "1" ["noequals"]
        (.ok ⟨"1", true, [], "t0", "t1"⟩) (fun _ _ => .error "unused")).calls =
      [NetCall.get "/v2/chains/solana/1"] := ⟨rfl, rfl⟩

/-- C2 amended: an override token without "=" always makes Configure
return an error and the PATCH is never issued; the GET of the current
resource, however, may already have been sent, because only the
missing-id and empty-argument checks precede network traffic. -/
theorem configure_malformed_token_no_patch
    (chainID : String) (args : List String)
    (getResult : Except String SolanaChainResource)
    (patchResult : Bool → ConfigDoc → Except String SolanaChainResource)
    (h : ∃ arg ∈ args, (splitEq arg).length ≠ 2) :
    (∃ e, (ConfigureSolanaChain chainID args getResult patchResult).result =
        .error e) ∧
    (∀ c ∈ (ConfigureSolanaChain chainID args getResult patchResult).calls,
        isPatchCall c = false) := by
  by_cases hid : chainID = ""
  · simp [ConfigureSolanaChain, hid]
  · by_cases hargs : args.isEmpty = true
    · simp [ConfigureSolanaChain, hid, hargs]
    · cases getResult with
      | error e => simp [ConfigureSolanaChain, hid, hargs, isPatchCall]
      | ok chain =>
        obtain ⟨e, he⟩ := parseParams_error_of_malformed args h []
        simp [ConfigureSolanaChain, hid, hargs, he, isPatchCall]

theorem configure_malformed_token_no_patch_witness :
    (∃ e, (ConfigureSolanaChain "9" ["bad"]
        (.error "conn refused") (fun _ _ => .error "unused")).result = .error e) ∧
    (∀ c ∈ (ConfigureSolanaChain "9" ["bad"]
        (.error "conn refused") (fun _ _ => .error "unused")).calls,
        isPatchCall c = false) :=
  configure_malformed_token_no_patch "9" ["bad"] (.error "conn refused")
    (fun _ _ => .error "unused") (by decide)

/-- C3: an override value is stored as its JSON-decoded form exactly when
the raw text parses as JSON, else as the verbatim string; `key=` stores
the empty string and `key=null` stores explicit null, never a deletion
marker. -/
theorem override_value_parse_or_literal
    (key raw : String) (h : '=' ∉ key.data) :
    parseParams [key ++ "=" ++ raw] [] =
      .ok [(key, match jsonUnmarshal raw with
                 | some v => v
                 | none => Json.str raw)] ∧
    jsonUnmarshal "42" = some (Json.num 42) ∧
    jsonUnmarshal "true" = some (Json.bool true) ∧
    jsonUnmarshal "null" = some Json.null ∧
    jsonUnmarshal "\x7b\"a\":1\x7d" = some (Json.obj [("a", Json.num 1)]) ∧
    jsonUnmarshal "hello" = none ∧
    jsonUnmarshal "foo-bar" = none ∧
    jsonUnmarshal "" = none ∧
    parseParams ["key="] [] = .ok [("key", Json.str "")] ∧
    parseParams ["key=null"] [] = .ok [("key", Json.null)] := by
  refine ⟨?_, rfl, rfl, rfl, rfl, rfl, rfl, rfl, rfl, rfl⟩
  simp only [parseParams]
  rw [splitEq_append key raw h]
  rfl

theorem override_value_parse_or_literal_witness :
    parseParams ["url" ++ "=" ++ "42"] [] =
      .ok [("url", match jsonUnmarshal "42" with
                   | some v => v
                   | none => Json.str "42")] :=
  (override_value_parse_or_literal "url" "42" (by decide)).1

/-- C4: with a fixed starting document and a valid override list, merging
twice with the same parsed overrides leaves every top-level field exactly
as after merging once. -/
theorem mergeConfig_idempotent_fields
    (config : ConfigDoc) (args : List String) (params : ConfigDoc)
    (hparse : parseParams args [] = .ok params) (k : String) :
    mapGet (mergeConfig (mergeConfig config params) params) k =
      mapGet (mergeConfig config params) k := by
  simp only [mapGet_mergeConfig]
  cases lastAssoc params k <;> simp

theorem mergeConfig_idempotent_fields_witness :
    mapGet (mergeConfig (mergeConfig [("timeout", Json.num 5)] [("url", Json.str "http://b")])
        [("url", Json.str "http://b")]) "url" =
      mapGet (mergeConfig [("timeout", Json.num 5)] [("url", Json.str "http://b")]) "url" :=
  mergeConfig_idempotent_fields [("timeout", Json.num 5)] ["url=http://b"]
    [("url", Json.str "http://b")] rfl "url"

/-- C5: ToRow is exactly the five-column projection identifier, enabled
flag as the literal "true"/"false", pretty-printed configuration text,
created timestamp, updated timestamp, in that order. -/
theorem toRow_five_columns (p : SolanaChainPresenter) :
    ToRow p = [p.resource.id, formatBool p.resource.enabled,
               renderJson 0 (Json.obj p.resource.config),
               p.resource.createdAt, p.resource.updatedAt] ∧
    (ToRow p).length = 5 ∧
    (formatBool p.resource.enabled = "true" ∨
     formatBool p.resource.enabled = "false") := by
  refine ⟨rfl, rfl, ?_⟩
  cases h : p.resource.enabled with
  | false => right; simp [formatBool, h]
  | true => left; simp [formatBool, h]

/-- C6: the collection renderer emits the header row exactly once,
followed by one data row per member, in the order of the source
collection. -/
theorem renderTable_header_once_order_preserved (ps : SolanaChainPresenters) :
    (SolanaChainPresenters.RenderTable ps).1 =
      ["ID", "Enabled", "Config", "Created", "Updated"] :: ps.map ToRow ∧
    (SolanaChainPresenters.RenderTable ps).1.length = ps.length + 1 := by
  have h1 : (SolanaChainPresenters.RenderTable ps).1 =
      ["ID", "Enabled", "Config", "Created", "Updated"] :: ps.map ToRow := by
    simp [SolanaChainPresenters.RenderTable, renderList, foldl_append_rows]
  exact ⟨h1, by rw [h1]; simp⟩

/-- C7: on the success path the PATCH carries exactly the current enabled
flag fetched by the GET and the complete merged configuration document,
not a diff. -/
theorem configure_patch_full_document
    (chainID : String) (args : List String) (chain : SolanaChainResource)
    (patchResult : Bool → ConfigDoc → Except String SolanaChainResource)
    (params : ConfigDoc)
    (hid : chainID ≠ "") (hargs : args ≠ [])
    (hparse : parseParams args [] = .ok params) :
    (ConfigureSolanaChain chainID args (.ok chain) patchResult).calls =
      [NetCall.get ("/v2/chains/solana/" ++ chainID),
       NetCall.patch ("/v2/chains/solana/" ++ chainID) chain.enabled
         (mergeConfig chain.config params)] ∧
    (ConfigureSolanaChain chainID args (.ok chain) patchResult).result =
      patchResult chain.enabled (mergeConfig chain.config params) := by
  have hne : args.isEmpty = false := by
    cases args with
    | nil => exact absurd rfl hargs
    | cons a l => rfl
  constructor <;> simp [ConfigureSolanaChain, hid, hne, hparse]

theorem configure_patch_full_document_witness :
    (ConfigureSolanaChain "5" ["timeout=9"]
        (.ok ⟨"5", false, [("url", Json.str "u")], "c0", "u0"⟩)
        (fun e c => .ok ⟨"5", e, c, "c0", "u1"⟩)).calls =
      [NetCall.get ("/v2/chains/solana/" ++ "5"),
       NetCall.patch ("/v2/chains/solana/" ++ "5") false
         (mergeConfig [("url", Json.str "u")] [("timeout", Json.num 9)])] ∧
    (ConfigureSolanaChain "5" ["timeout=9"]
        (.ok ⟨"5", false, [("url", Json.str "u")], "c0", "u0"⟩)
        (fun e c => .ok ⟨"5", e, c, "c0", "u1"⟩)).result =
      (fun e c => (.ok ⟨"5", e, c, "c0", "u1"⟩ : Except String SolanaChainResource))
        false (mergeConfig [("url", Json.str "u")] [("timeout", Json.num 9)]) :=
  configure_patch_full_document "5" ["timeout=9"]
    ⟨"5", false, [("url", Json.str "u")], "c0", "u0"⟩
    (fun e c => .ok ⟨"5", e, c, "c0", "u1"⟩) [("timeout", Json.num 9)]
    (by decide) (by decide) rfl

/-- C8: when the operation has already failed and the deferred
response-body close also fails, the aggregated error keeps every primary
message and the close message: neither is discarded. -/
theorem deferred_close_keeps_both
    (err : List String) (c : String) (h : err ≠ []) :
    deferredBodyClose err (some c) = err ++ [c] ∧
    (∀ m ∈ err, m ∈ deferredBodyClose err (some c)) ∧
    c ∈ deferredBodyClose err (some c) := by
  refine ⟨rfl, ?_, ?_⟩
  · intro m hm
    simp only [deferredBodyClose, multierrAppend, List.mem_append]
    exact Or.inl hm
  · simp [deferredBodyClose, multierrAppend]

theorem deferred_close_keeps_both_witness :
    deferredBodyClose ["primary failure"] (some "close failed") =
      ["primary failure"] ++ ["close failed"] ∧
    (∀ m ∈ ["primary failure"],
        m ∈ deferredBodyClose ["primary failure"] (some "close failed")) ∧
    "close failed" ∈ deferredBodyClose ["primary failure"] (some "close failed") :=
  deferred_close_keeps_both ["primary failure"] "close failed" (by decide)

/-- C9: for every successfully decoded resource the marshalling panic in
ToRow is unreachable: the effectful rendering always returns the row. -/
theorem toRow_never_panics (p : SolanaChainPresenter) :
    ToRowE p = .ok (ToRow p) := by
  unfold ToRowE goMarshalIndent
  rw [encodableJson_eq_true (Json.obj p.resource.config)]
  rfl

/-- C10: both the single-resource and the collection RenderTable always
return the nil error, whatever is written to the sink. -/
theorem renderTable_returns_nil (p : SolanaChainPresenter) (ps : SolanaChainPresenters) :
    (SolanaChainPresenter.RenderTable p).2 = none ∧
    (SolanaChainPresenters.RenderTable ps).2 = none := ⟨rfl, rfl⟩
